import Mathlib

/-!
Verification of the Scoutly AI-service core against its specification.

Python strings are shallowly embedded as `List Char` (`PStr`); Python `dict`
records become Lean structures with `Option` fields for keys that may be
absent or `None`; Python code that can raise is embedded as `Option`-valued
functions (`none` = an exception escapes).  All definitions are direct
transcriptions of the source files under `ai_service/`; character case
operations use the ASCII case maps (the source only manipulates ASCII
letters at every place that matters to the claims).
-/

namespace Scoutly

/-- Python strings, embedded as lists of characters. -/
abbrev PStr := List Char

/-- Literal helper: a Lean string literal as a `PStr`. -/
def pyS (s : String) : PStr := s.toList

/-- Python whitespace characters (the ASCII set recognised by `str.strip`,
`str.split()` and the regex class `\s`). -/
def isSpaceChar (c : Char) : Bool :=
  c = ' ' || c = '\t' || c = '\n' || c = '\r' || c = '\x0b' || c = '\x0c'

/-- Python `s.lower()` (ASCII case map). -/
def pyLower (s : PStr) : PStr := s.map Char.toLower

/-- Python `s.strip()`: remove leading and trailing whitespace. -/
def pyStrip (s : PStr) : PStr :=
  ((s.dropWhile isSpaceChar).reverse.dropWhile isSpaceChar).reverse

/-- Python `needle in haystack` on strings: some suffix of the haystack
starts with the needle. -/
def containsSub (n : PStr) : PStr → Bool
  | [] => n.isPrefixOf []
  | c :: t => n.isPrefixOf (c :: t) || containsSub n t

/-- Python `s.split(':', 1)[1]`: the text after the first colon; `none`
models the `IndexError` raised when the string has no colon. -/
def splitColonSecond : PStr → Option PStr
  | [] => none
  | c :: cs => if c = ':' then some cs else splitColonSecond cs

/-- Accumulator pass behind `runsOf`: `cur` is the current (reversed) run. -/
def runsOfGo (p : Char → Bool) : PStr → PStr → List PStr
  | cur, [] => if cur = [] then [] else [cur.reverse]
  | cur, c :: cs =>
    if p c then runsOfGo p (c :: cur) cs
    else if cur = [] then runsOfGo p [] cs
    else cur.reverse :: runsOfGo p [] cs

/-- Maximal runs of characters satisfying `p`, left to right. -/
def runsOf (p : Char → Bool) (s : PStr) : List PStr := runsOfGo p [] s

/-- Python `s.split()` (no separator): maximal runs of non-whitespace. -/
def pySplitWs (s : PStr) : List PStr := runsOf (fun c => !isSpaceChar c) s

/-- Python `sep.join(parts)`. -/
def pyJoin (sep : PStr) : List PStr → PStr
  | [] => []
  | [x] => x
  | x :: xs => x ++ sep ++ pyJoin sep xs

/-- Fuel-indexed body of `pyReplace`.  The fuel only makes the recursion
structural: every recursive call shortens the string by at least one
character (the caller guarantees `old ≠ []`), so with fuel `s.length` the
fuel never runs out. -/
def pyReplaceGo (old new : PStr) : Nat → PStr → PStr
  | 0, s => s
  | fuel + 1, s =>
    match s with
    | [] => []
    | c :: cs =>
      if old.isPrefixOf (c :: cs) then
        new ++ pyReplaceGo old new fuel (List.drop old.length (c :: cs))
      else c :: pyReplaceGo old new fuel cs

/-- Python `s.replace(old, new)` for a non-empty `old`: replace every
(left-to-right, non-overlapping) occurrence.  The source only calls this
with non-empty literal `old` strings, so the `old = []` case (where Python
inserts `new` at every position) is mapped to the identity. -/
def pyReplace (s old new : PStr) : PStr :=
  if old = [] then s else pyReplaceGo old new s.length s

/-- Python `s.title()` (ASCII): uppercase every letter that follows a
non-letter, lowercase every other letter.  `prevAlpha` records whether the
previous character was a letter. -/
def pyTitleGo : Bool → PStr → PStr
  | _, [] => []
  | prevAlpha, c :: cs =>
    if c.isAlpha then
      (if prevAlpha then c.toLower else c.toUpper) :: pyTitleGo true cs
    else c :: pyTitleGo false cs

/-- Python `s.title()`. -/
def pyTitleCase (s : PStr) : PStr := pyTitleGo false s

/-- Python `raw_text.split('\n')`. -/
def splitLines (s : PStr) : List PStr := List.splitOn '\n' s

/-- First-occurrence deduplication, Python `list(dict.fromkeys(xs))`. -/
def pyDedupFirstGo : List PStr → List PStr → List PStr
  | _, [] => []
  | seen, x :: xs =>
    if x ∈ seen then pyDedupFirstGo seen xs
    else x :: pyDedupFirstGo (x :: seen) xs

/-- Python `list(dict.fromkeys(xs))`: drop duplicates, keep first
occurrences in order. -/
def pyDedupFirst (l : List PStr) : List PStr := pyDedupFirstGo [] l

/-- Python truthiness of an optional string: `None` and `""` are falsy. -/
def truthyStr (o : Option PStr) : Bool :=
  match o with
  | none => false
  | some s => s ≠ []

/-!
## The structured job record (`jd_parser.py`)

`StructuredJobRecord` as produced by `JDParser._fallback_structure_jd`:
dictionary keys that the source may leave as `None` become `Option`
fields; `skills_required` / `requirements` / `responsibilities` are plain
lists (never `None` in the source). -/

structure JDRecord where
  job_title : Option PStr
  company : Option PStr
  location : Option PStr
  experience_required : Option PStr
  skills_required : List PStr
  job_type : Option PStr
  salary_range : Option PStr
  job_description : PStr
  requirements : List PStr
  responsibilities : List PStr
  fallback_used : Bool
deriving DecidableEq, Repr

/-! ### Job-title extraction (`jd_parser.py` lines 204-234) -/

def title_keywords : List PStr :=
  [pyS "engineer", pyS "developer", pyS "manager", pyS "analyst",
   pyS "specialist", pyS "lead", pyS "senior", pyS "junior", pyS "intern",
   pyS "associate", pyS "director", pyS "coordinator", pyS "consultant",
   pyS "architect", pyS "designer", pyS "administrator", pyS "officer"]

def titleSkipWords : List PStr :=
  [pyS "job description", pyS "overview", pyS "about", pyS "requirements"]

def titleLabelStrings : List PStr :=
  [pyS "job title:", pyS "position:", pyS "role:", pyS "title:"]

/-- The sequential label-stripping loop `for prefix in [...]` over the job
title: each label is tried in turn against the current value. -/
def stripTitleLabels (t : PStr) : PStr :=
  titleLabelStrings.foldl
    (fun acc lab =>
      if lab.isPrefixOf (pyLower acc) then pyStrip (acc.drop lab.length)
      else acc)
    t

/-- A line containing one of the skipped header words. -/
def isHeaderLine (lc : PStr) : Bool :=
  titleSkipWords.any (fun s => containsSub s (pyLower lc))

/-- A line containing one of the role keywords. -/
def hasTitleKeyword (lc : PStr) : Bool :=
  title_keywords.any (fun k => containsSub k (pyLower lc))

/-- The heuristic short-title test applied to line index `i`:
one of the first 3 lines, at most 6 words, more than 5 characters. -/
def heuristicTitleLine (i : Nat) (lc : PStr) : Bool :=
  decide (i < 3) && decide ((pySplitWs lc).length ≤ 6) && decide (5 < lc.length)

/-- The `for i, line in enumerate(lines[:10])` title scan: `i` is the raw
line index (empty lines are counted). -/
def titleScan : Nat → List PStr → Option PStr
  | _, [] => none
  | i, line :: rest =>
    let lc := pyStrip line
    if lc = [] then titleScan (i + 1) rest
    else if isHeaderLine lc then titleScan (i + 1) rest
    else if hasTitleKeyword lc then some (stripTitleLabels lc)
    else if heuristicTitleLine i lc then some lc
    else titleScan (i + 1) rest

/-! ### Company extraction (`jd_parser.py` lines 237-258, 399-400) -/

def companyIndicators : List PStr :=
  [pyS "company:", pyS "organization:", pyS "employer:"]

def companySuffixes : List PStr :=
  [pyS "inc.", pyS "ltd.", pyS "corp.", pyS "llc", pyS "pvt",
   pyS "technologies", pyS "solutions"]

/-- A stripped line containing an explicit company label. -/
def isCompanyLabelLine (lc : PStr) : Bool :=
  companyIndicators.any (fun ind => containsSub ind (pyLower lc))

/-- A stripped line accepted by the legal-suffix branch: contains a
suffix keyword and has at most 8 words. -/
def isCompanySuffixLine (lc : PStr) : Bool :=
  companySuffixes.any (fun sfx => containsSub sfx (pyLower lc))
    && decide ((pySplitWs lc).length ≤ 8)

/-- The `for line in lines[:15]` company scan.  `acc` is the loop-carried
`company` variable; the outer `Option` is the exception monad (the `none`
is the `IndexError` of `split(':', 1)[1]`, proved unreachable below). -/
def companyScan : Option PStr → List PStr → Option (Option PStr)
  | acc, [] => some acc
  | acc, line :: rest =>
    let lc := pyStrip line
    if lc = [] then companyScan acc rest
    else
      match (if isCompanyLabelLine lc
             then (splitColonSecond lc).map (fun t => some (pyStrip t))
             else some acc) with
      | none => none
      | some acc1 =>
        if isCompanySuffixLine lc then some (some lc)
        else companyScan acc1 rest

/-- Post-processing of the company value (`jd_parser.py` lines 399-400):
`if company: company.replace('Company:', '').replace('Organization:', '').strip()`. -/
def postCompany : Option PStr → Option PStr
  | none => none
  | some c =>
    if c = [] then some c
    else some (pyStrip (pyReplace (pyReplace c (pyS "Company:") []) (pyS "Organization:") []))

/-! ### Location extraction (`jd_parser.py` lines 261-306, 401-402) -/

def locationIndicators : List PStr :=
  [pyS "location:", pyS "based in:", pyS "office:", pyS "city:", pyS "address:"]

def location_keywords : List PStr :=
  [pyS "bangalore", pyS "mumbai", pyS "delhi", pyS "pune", pyS "hyderabad",
   pyS "chennai", pyS "kolkata", pyS "ahmedabad", pyS "surat", pyS "jaipur",
   pyS "lucknow", pyS "kanpur", pyS "nagpur", pyS "indore", pyS "gurgaon",
   pyS "gurugram", pyS "noida", pyS "faridabad", pyS "ghaziabad",
   pyS "new york", pyS "san francisco", pyS "london", pyS "singapore",
   pyS "dubai", pyS "toronto", pyS "sydney", pyS "berlin", pyS "paris",
   pyS "tokyo", pyS "remote", pyS "work from home", pyS "wfh",
   pyS "india", pyS "usa", pyS "uk", pyS "canada", pyS "australia",
   pyS "germany", pyS "france"]

/-- A stripped line containing an explicit location label. -/
def isLocationLabelLine (lc : PStr) : Bool :=
  locationIndicators.any (fun ind => containsSub ind (pyLower lc))

/-- The word-window branch of the location keyword match: find the first
word containing the keyword, return `' '.join(words[max(0,i-2):min(len,i+3)])`;
`none` when no single word contains the keyword (then `location` is left
unchanged by the source). -/
def locWindowGo (kw : PStr) (allWords : List PStr) : Nat → List PStr → Option PStr
  | _, [] => none
  | i, w :: rest =>
    if containsSub kw (pyLower w) then
      some (pyJoin (pyS " ") (((allWords.drop (i - 2)).take (min allWords.length (i + 3) - (i - 2)))))
    else locWindowGo kw allWords (i + 1) rest

/-- The keyword branch of the location scan applied to one stripped line:
`some v` when the branch assigns `location = v`, `none` when it leaves
`location` unchanged. -/
def locKeywordHit (lc : PStr) : Option PStr :=
  match location_keywords.find? (fun kw => containsSub kw (pyLower lc)) with
  | none => none
  | some kw =>
    let ws := pySplitWs lc
    if ws.length ≤ 10 then some lc
    else locWindowGo kw ws 0 ws

/-- The `if not location:` keyword step of the location scan applied
after the label step: when `location` is still falsy, a keyword hit (if
any) assigns it. -/
def locAfterKeyword (acc1 : Option PStr) (lc : PStr) : Option PStr :=
  if truthyStr acc1 then acc1
  else match locKeywordHit lc with
       | some v => some v
       | none => acc1

/-- The `for line in lines` location scan; `acc` is the loop-carried
`location` variable (note the source does not skip empty lines here, and
keeps scanning while `location` is falsy). -/
def locationScan : Option PStr → List PStr → Option (Option PStr)
  | acc, [] => some acc
  | acc, line :: rest =>
    let lc := pyStrip line
    match (if isLocationLabelLine lc
           then (splitColonSecond lc).map (fun t => some (pyStrip t))
           else some acc) with
    | none => none
    | some acc1 =>
      let acc2 := locAfterKeyword acc1 lc
      if truthyStr acc2 then some acc2 else locationScan acc2 rest

/-- Post-processing of the location value (`jd_parser.py` lines 401-402). -/
def postLocation : Option PStr → Option PStr
  | none => none
  | some c =>
    if c = [] then some c
    else some (pyStrip (pyReplace (pyReplace c (pyS "Location:") []) (pyS "Based in:") []))

/-!
### A small backtracking regex engine

`re.search` as used by the experience patterns (`jd_parser.py` lines
313-326).  The constructs appearing in those five patterns are: character
classes, concatenation, alternation (left branch preferred), greedy `*`,
`+`, `?` and a single capturing group.  `reMatch` enumerates the
candidate matches of an expression against a prefix of the input in
backtracking priority order (greedy: more repetitions first; alternation:
left first), each as `(group-1 capture, remaining suffix)`.  The fuel
argument bounds the number of `*` iterations; every counted iteration
consumes at least one character (matches Python, which stops repeating a
starred body once it matches emptily), so fuel `length + 1` is exact. -/

inductive RE where
  | eps : RE
  | cls : (Char → Bool) → RE
  | seq : RE → RE → RE
  | alt : RE → RE → RE
  | star : RE → RE
  | group : RE → RE

/-- Combine group-1 captures of two sequenced pieces: the later capture
wins (each of the five source patterns has a single group, matched at most
once, so at most one side is ever `some`). -/
def mergeCaps (g h : Option PStr) : Option PStr :=
  match h with
  | some x => some x
  | none => g

/-- One fuel level of the matcher: structural recursion on the expression,
with `starCont` the matcher used for the continuation of a `*` after one
(character-consuming) iteration of its body. -/
def reMatchAux (starCont : RE → PStr → List (Option PStr × PStr)) :
    RE → PStr → List (Option PStr × PStr)
  | .eps, s => [(none, s)]
  | .cls _, [] => []
  | .cls p, c :: cs => if p c then [(none, cs)] else []
  | .seq a b, s =>
    (reMatchAux starCont a s).flatMap fun gr =>
      (reMatchAux starCont b gr.2).map fun hr => (mergeCaps gr.1 hr.1, hr.2)
  | .alt a b, s => reMatchAux starCont a s ++ reMatchAux starCont b s
  | .star r, s =>
    ((reMatchAux starCont r s).filter fun gr => gr.2.length < s.length).flatMap
      (fun gr => (starCont (.star r) gr.2).map fun hr => (mergeCaps gr.1 hr.1, hr.2))
      ++ [(none, s)]
  | .group r, s =>
    (reMatchAux starCont r s).map fun gr => (some (s.take (s.length - gr.2.length)), gr.2)

def reMatch : Nat → RE → PStr → List (Option PStr × PStr)
  | 0, re, s => reMatchAux (fun _ s => [(none, s)]) re s
  | fuel + 1, re, s => reMatchAux (reMatch fuel) re s

/-- Python `re.search`: try every start position left to right, return the first
(highest-priority) match's group-1 capture. -/
def reSearch (p : RE) : PStr → Option (Option PStr)
  | [] =>
    match reMatch 1 p [] with
    | [] => none
    | gr :: _ => some gr.1
  | c :: cs =>
    match reMatch ((c :: cs).length + 1) p (c :: cs) with
    | [] => reSearch p cs
    | gr :: _ => some gr.1

/-- One literal character. -/
def reLit (c : Char) : RE := .cls (fun d => d = c)

/-- A literal string. -/
def reStr (s : String) : RE := s.toList.foldr (fun c acc => .seq (reLit c) acc) .eps

/-- Greedy `r?`. -/
def reOpt (r : RE) : RE := .alt r .eps

/-- Greedy `r+`. -/
def rePlus (r : RE) : RE := .seq r (.star r)

/-- Digits: `\d+`. -/
def reDigits : RE := rePlus (.cls Char.isDigit)

/-- Whitespace: `\s*`. -/
def reWs : RE := .star (.cls isSpaceChar)

/-- The unit `(?:years?|yrs?)`. -/
def reYears : RE :=
  .alt (.seq (reStr "year") (reOpt (reLit 's'))) (.seq (reStr "yr") (reOpt (reLit 's')))

/-- The word `(?:experience|exp)`. -/
def reExpWord : RE := .alt (reStr "experience") (reStr "exp")

/-- The word `(?:minimum|min|at least)`. -/
def reMinWord : RE := .alt (reStr "minimum") (.alt (reStr "min") (reStr "at least"))

/-- The shared range/value group `\d+[\+\-\s]*(?:to|\-|–)\s*\d+|\d+\+?`. -/
def reRangeBody : RE :=
  .alt (.seq reDigits (.seq (.star (.cls (fun c => c = '+' || c = '-' || isSpaceChar c)))
          (.seq (.alt (reStr "to") (.alt (reLit '-') (reLit '–'))) (.seq reWs reDigits))))
       (.seq reDigits (reOpt (reLit '+')))

/-- Pattern 1: `(RANGE)\s*(?:years?|yrs?)\s*(?:of\s*)?(?:experience|exp)`. -/
def expPat1 : RE :=
  .seq (.group reRangeBody)
    (.seq reWs (.seq reYears (.seq reWs (.seq (reOpt (.seq (reStr "of") reWs)) reExpWord))))

/-- Pattern 2: `(?:experience|exp)[\s:]*(RANGE)\s*(?:years?|yrs?)`. -/
def expPat2 : RE :=
  .seq reExpWord
    (.seq (.star (.cls (fun c => isSpaceChar c || c = ':')))
      (.seq (.group reRangeBody) (.seq reWs reYears)))

/-- Pattern 3: `(RANGE)\s*(?:years?|yrs?)`. -/
def expPat3 : RE := .seq (.group reRangeBody) (.seq reWs reYears)

/-- Pattern 4: `(?:minimum|min|at least)\s*(\d+)\s*(?:years?|yrs?)`. -/
def expPat4 : RE :=
  .seq reMinWord (.seq reWs (.seq (.group reDigits) (.seq reWs reYears)))

/-- Pattern 5: `(\d+)\s*(?:years?|yrs?)\s*(?:minimum|min|experience|exp)`. -/
def expPat5 : RE :=
  .seq (.group reDigits)
    (.seq reWs (.seq reYears (.seq reWs
      (.alt (reStr "minimum") (.alt (reStr "min") (.alt (reStr "experience") (reStr "exp")))))))

def expPatterns : List RE := [expPat1, expPat2, expPat3, expPat4, expPat5]

/-- The `for pattern in experience_patterns` loop: the first pattern with a
match wins; `some g` carries that match's group-1 capture. -/
def tryExpPatterns : List RE → PStr → Option (Option PStr)
  | [], _ => none
  | p :: ps, s =>
    match reSearch p s with
    | none => tryExpPatterns ps s
    | some g => some g

def expTextPatterns : List PStr :=
  [pyS "entry level", pyS "fresher", pyS "fresh graduate", pyS "no experience",
   pyS "junior level", pyS "mid level", pyS "senior level", pyS "experienced"]

/-- Experience extraction (`jd_parser.py` lines 309-337) over the
lower-cased text.  The outer `Option` is the exception monad: its `none`
is the `AttributeError` of `match.group(1).strip()` when group 1 did not
participate (proved unreachable below); the inner `Option` is the
`experience_required` value. -/
def experienceExtract (tl : PStr) : Option (Option PStr) :=
  match tryExpPatterns expPatterns tl with
  | some (some g) => some (some (pyStrip g))
  | some none => none
  | none =>
    some (match expTextPatterns.find? (fun p => containsSub p tl) with
          | some p => some (pyTitleCase p)
          | none => none)

/-! ### Skills extraction (`jd_parser.py` lines 340-363) -/

def skill_keywords : List PStr :=
  [pyS "python", pyS "java", pyS "javascript", pyS "typescript", pyS "c++",
   pyS "c#", pyS "php", pyS "ruby", pyS "go", pyS "rust", pyS "swift",
   pyS "kotlin",
   pyS "react", pyS "angular", pyS "vue", pyS "node", pyS "express",
   pyS "django", pyS "flask", pyS "fastapi", pyS "spring", pyS "laravel",
   pyS "sql", pyS "mysql", pyS "postgresql", pyS "mongodb", pyS "redis",
   pyS "elasticsearch", pyS "oracle", pyS "sqlite",
   pyS "aws", pyS "azure", pyS "gcp", pyS "docker", pyS "kubernetes",
   pyS "jenkins", pyS "git", pyS "github", pyS "gitlab", pyS "ci/cd",
   pyS "pandas", pyS "numpy", pyS "tensorflow", pyS "pytorch",
   pyS "scikit-learn", pyS "tableau", pyS "power bi", pyS "excel",
   pyS "api", pyS "rest", pyS "graphql", pyS "microservices", pyS "agile",
   pyS "scrum", pyS "jira", pyS "confluence",
   pyS "project management", pyS "business analysis",
   pyS "requirements gathering", pyS "stakeholder management"]

/-- Skills extraction over the lower-cased text: vocabulary-order
substring matches, title-cased, first-occurrence deduplicated, capped at
15. -/
def skillsExtract (tl : PStr) : List PStr :=
  (pyDedupFirst
    ((skill_keywords.filter (fun sk => containsSub (pyLower sk) tl)).map
      pyTitleCase)).take 15

/-! ### Requirements / responsibilities section loop (`jd_parser.py`
lines 366-396) -/

inductive Sec where
  | noSec : Sec
  | reqSec : Sec
  | respSec : Sec
deriving DecidableEq, Repr

def reqSectionKws : List PStr :=
  [pyS "requirement", pyS "qualification", pyS "must have", pyS "should have",
   pyS "skills", pyS "competenc", pyS "prerequisite"]

def respSectionKws : List PStr :=
  [pyS "responsibility", pyS "duties", pyS "role", pyS "will be",
   pyS "tasks", pyS "job duties", pyS "what you will do"]

/-- The bullet characters of `line[0] in '-•*◦'`. -/
def bulletHeadChars : PStr := pyS "-•*◦"

/-- The bullet test
`line.startswith(('-','•','*','◦')) or (line[0].isdigit() and line[1:3] in ['. ', ') '])`:
`none` models the `IndexError` of `line[0]` on an empty string (Python's
`startswith` and slices never raise). -/
def bulletTest (l : PStr) : Option Bool :=
  if (pyS "-").isPrefixOf l || (pyS "•").isPrefixOf l
      || (pyS "*").isPrefixOf l || (pyS "◦").isPrefixOf l then some true
  else
    match l.head? with
    | none => none
    | some c =>
      some (c.isDigit && (decide ((l.drop 1).take 2 = pyS ". ")
                          || decide ((l.drop 1).take 2 = pyS ") ")))

/-- One iteration of the requirements/responsibilities loop; the state is
`(current_section, requirements, responsibilities)`. -/
def sectionStep (st : Sec × List PStr × List PStr) (line : PStr) :
    Option (Sec × List PStr × List PStr) :=
  let lc := pyStrip line
  if lc = [] ∨ lc.length < 3 then some st
  else
    let ll := pyLower lc
    let wc := (pySplitWs lc).length
    let sec :=
      if reqSectionKws.any (fun k => containsSub k ll) && decide (wc ≤ 8) then Sec.reqSec
      else if respSectionKws.any (fun k => containsSub k ll) && decide (wc ≤ 8) then Sec.respSec
      else st.1
    match bulletTest lc with
    | none => none
    | some false => some (sec, st.2.1, st.2.2)
    | some true =>
      match lc.head? with
      | none => none
      | some c0 =>
        let cleaned := pyStrip (if bulletHeadChars.contains c0 then lc.drop 1 else lc.drop 2)
        if 10 < cleaned.length then
          match sec with
          | Sec.reqSec => some (sec, st.2.1 ++ [cleaned], st.2.2)
          | Sec.respSec => some (sec, st.2.1, st.2.2 ++ [cleaned])
          | Sec.noSec => some (sec, st.2.1, st.2.2)
        else some (sec, st.2.1, st.2.2)

/-- The `for line in lines` requirements/responsibilities loop. -/
def sectionLoop (st : Sec × List PStr × List PStr) :
    List PStr → Option (Sec × List PStr × List PStr)
  | [] => some st
  | line :: rest =>
    match sectionStep st line with
    | none => none
    | some st1 => sectionLoop st1 rest

/-! ### The full fallback extractor (`jd_parser.py` lines 193-416) -/

/-- The method `JDParser._fallback_structure_jd(raw_text)`: the deterministic
rule-based extractor.  The result is `none` exactly when the Python code
would raise; the totality theorem below shows this never happens. -/
def fallbackStructureJD (raw : PStr) : Option JDRecord :=
  let tl := pyLower raw
  let lines := splitLines raw
  match companyScan none (lines.take 15) with
  | none => none
  | some comp =>
    match locationScan none lines with
    | none => none
    | some loc =>
      match experienceExtract tl with
      | none => none
      | some expv =>
        match sectionLoop (Sec.noSec, [], []) lines with
        | none => none
        | some st =>
          some { job_title := titleScan 0 (lines.take 10)
                 company := postCompany comp
                 location := postLocation loc
                 experience_required := expv
                 skills_required := skillsExtract tl
                 job_type := none
                 salary_range := none
                 job_description := raw
                 requirements := st.2.1.take 10
                 responsibilities := st.2.2.take 10
                 fallback_used := true }

/-!
## Candidate ranking (`profile_ranker.py`)

`ProfileRanker.rank_profiles(raw_profiles, job_prompt)`.  The external
scoring call (`chain.invoke`, which already receives the job prompt and
the rendered repo summary) is abstracted as an oracle
`Profile → Option ScoreRes`: `none` models any exception from the call,
`some` a schema-conforming `{match_score, reasoning}` result.  `name` is
mandatory (the success path indexes `profile['name']`), the remaining
keys may be absent/`None`. -/

structure Repo where
  name : PStr
  stars : Int
deriving DecidableEq, Repr

structure Profile where
  name : PStr
  source : Option PStr
  title : Option PStr
  snippet : Option PStr
  repos : Option (List Repo)
  match_score : Option Int
  reasoning : Option PStr
deriving DecidableEq, Repr

structure ScoreRes where
  match_score : Int
  reasoning : PStr
deriving DecidableEq, Repr

/-- Python truthiness of the `repos` value: absent/`None`/`[]` are falsy. -/
def truthyRepos (o : Option (List Repo)) : Bool :=
  match o with
  | none => false
  | some l => l ≠ []

/-- The `fallback_bits` of the `except` branch: the truthy values of `title`
and `source` in order, plus `"GitHub repos present"` when repos is
truthy. -/
def reasoningBits (p : Profile) : List PStr :=
  (([p.title, p.source].filterMap id).filter (fun b => b ≠ []))
    ++ (if truthyRepos p.repos then [pyS "GitHub repos present"] else [])

/-- The fallback reasoning synthesized in the `except` branch
(`profile_ranker.py` lines 74-77): join the truthy values of `title` and
`source` with `", "`, append `"GitHub repos present"` when repos is
truthy; if the joined string is empty use `"Insufficient data."`. -/
def fallbackReasoning (p : Profile) : PStr :=
  let j := pyJoin (pyS ", ") (reasoningBits p)
  if j = [] then pyS "Insufficient data." else j

/-- The body of the `for profile in raw_profiles` loop: on oracle success
the profile gains the returned score and reasoning; on failure
`match_score = profile.get('match_score') or 0` and the synthesized
reasoning. -/
def scoreStep (oracle : Profile → Option ScoreRes) (p : Profile) : Profile :=
  match oracle p with
  | some r => { p with match_score := some r.match_score, reasoning := some r.reasoning }
  | none =>
    { p with
      match_score := some (match p.match_score with
                           | some v => if v = 0 then 0 else v
                           | none => 0)
      reasoning := some (fallbackReasoning p) }

/-- The sort key `p.get('match_score', 0)`. -/
def scoreKey (p : Profile) : Int := p.match_score.getD 0

/-- Stable descending insertion: the new element `x` (earlier in the
input) goes before every element of equal key. -/
def insertDesc (x : Profile) : List Profile → List Profile
  | [] => [x]
  | y :: ys => if scoreKey y ≤ scoreKey x then x :: y :: ys else y :: insertDesc x ys

/-- The sort `ranked_profiles.sort(key=lambda p: p.get('match_score', 0), reverse=True)`:
Python's `list.sort` is a stable sort; `sortDesc` is a stable descending
insertion sort, which realises exactly that specification. -/
def sortDesc : List Profile → List Profile
  | [] => []
  | x :: xs => insertDesc x (sortDesc xs)

/-- The method `ProfileRanker.rank_profiles`: empty input returns `[]` immediately;
otherwise every profile is scored independently (append order = input
order) and the batch is stably sorted by score, descending. -/
def rankProfiles (oracle : Profile → Option ScoreRes) (profiles : List Profile) :
    List Profile :=
  match profiles with
  | [] => []
  | _ => sortDesc (profiles.map (scoreStep oracle))

/-!
## Prompt validation/optimization (`prompt_generator.py` lines 186-217)
-/

/-- The length guard: a prompt longer than 200 characters is replaced by
its first 25 whitespace-separated words joined with single spaces. -/
def truncate25 (p : PStr) : PStr :=
  if 200 < p.length then pyJoin (pyS " ") ((pySplitWs p).take 25) else p

/-- The title guard: a truthy job title not contained case-insensitively
in the prompt is prepended (`f"{job_title} {optimized}"`). -/
def ensureTitle (title p : PStr) : PStr :=
  if title = [] then p
  else if containsSub (pyLower title) (pyLower p) then p
  else title ++ pyS " " ++ p

/-- The method `PromptGenerator.validate_and_optimize_prompts(linkedin, github, jd)`.
`structured_jd.get('job_title', '')` conflates an absent key, `None` and
`""` into the falsy title, embedded as `jd.job_title.getD []`. -/
def validate_and_optimize_prompts (linkedin github : PStr) (jd : JDRecord) :
    PStr × PStr :=
  let title := jd.job_title.getD []
  (ensureTitle title (truncate25 linkedin), ensureTitle title (truncate25 github))

/-!
## Resume similarity scorer (`main.py` lines 202-228)
-/

/-- The token character class `[a-zA-Z0-9+#.]` of `_simple_tokenize`. -/
def isTokChar (c : Char) : Bool :=
  (decide ('a' ≤ c) && decide (c ≤ 'z')) || (decide ('A' ≤ c) && decide (c ≤ 'Z'))
    || (decide ('0' ≤ c) && decide (c ≤ '9')) || c = '+' || c = '#' || c = '.'

def stopWords : List PStr :=
  [pyS "the", pyS "and", pyS "in", pyS "of", pyS "to", pyS "a", pyS "an",
   pyS "with", pyS "for", pyS "on", pyS "at", pyS "by", pyS "is", pyS "are",
   pyS "as", pyS "be"]

/-- The function `_simple_tokenize(s)`: lower-case, take the maximal `[a-zA-Z0-9+#.]+`
runs (`re.findall` returns exactly the maximal runs for a single
character class), drop stop words.  The Python `set` is embedded as the
deduplicated list of tokens in first-occurrence order: the scorer only
uses cardinalities, intersection cardinality and emptiness, which the
deduplicated list represents faithfully. -/
def simpleTokenize (s : PStr) : List PStr :=
  pyDedupFirst ((runsOf isTokChar (pyLower s)).filter (fun t => ¬ t ∈ stopWords))

/-- The job text assembled by `_score_resume_against_jd`: the truthy
values of `job_title`, `location`, `experience_required` followed by all
`skills_required` entries, joined by spaces and stripped; if that is
empty, the fallback text (or empty). -/
def jdText (jd : Option JDRecord) (fallbackText : Option PStr) : PStr :=
  let parts : List PStr :=
    match jd with
    | none => []
    | some o =>
      (([o.job_title, o.location, o.experience_required].filterMap id).filter
        (fun v => v ≠ [])) ++ o.skills_required
  let joined := pyStrip (pyJoin (pyS " ") parts)
  if joined ≠ [] then joined else fallbackText.getD []

/-- Round-half-to-even of the rational `n / d` (for `d > 0`): the value of
Python's `int(round(n / max(d, 1)))` on the exact quotient.  (The
source computes `100 * overlap / denom` in floating point; for the exact
half values, which decide the tie-breaking behaviour, the float quotient
is exact, and away from halves the float error cannot cross the rounding
boundary for any realistic token-set size, so the rational rounding is
the faithful value.) -/
def pyRoundDiv (n d : Nat) : Nat :=
  let q := n / d
  let r := n % d
  if 2 * r < d then q
  else if d < 2 * r then q + 1
  else if q % 2 = 0 then q else q + 1

/-- Decimal rendering of a number, Python `f"{n}"`. -/
def natToPStr (n : Nat) : PStr := (toString n).toList

def insufficientMsg : PStr := pyS "Insufficient data to compute score"

/-- The reasoning text `Matched {overlap} of {denom} JD terms.`. -/
def matchedMsg (overlap denom : Nat) : PStr :=
  pyS "Matched " ++ natToPStr overlap ++ pyS " of " ++ natToPStr denom
    ++ pyS " JD terms."

/-- The intersection cardinality `len(R & J)` of the two token sets
(both lists are deduplicated). -/
def tokOverlap (r j : List PStr) : Nat := (r.filter (fun t => t ∈ j)).length

/-- The function `_score_resume_against_jd(resume_text, jd_obj, jd_fallback_text)`. -/
def scoreResumeAgainstJD (resume : PStr) (jd : Option JDRecord)
    (fallbackText : Option PStr) : Int × PStr :=
  let r := simpleTokenize resume
  let j := simpleTokenize (jdText jd fallbackText)
  if r = [] ∨ j = [] then ((0 : Int), insufficientMsg)
  else
    let overlap := tokOverlap r j
    let denom := j.length
    ((pyRoundDiv (100 * overlap) (max denom 1) : Int), matchedMsg overlap denom)

/-!
## Auxiliary predicates and concrete instances used by the theorems
-/

/-- Every candidate match in the list carries a group-1 capture. -/
def capsSome (l : List (Option PStr × PStr)) : Prop := ∀ x ∈ l, x.1.isSome

/-- The predicate `allSkipped i ls`: scanning `ls` from line index `i`, the title scan
passes over every line (each is blank, a header line, or has neither a
role keyword nor the short-title heuristic at its index). -/
def allSkipped : Nat → List PStr → Bool
  | _, [] => true
  | i, l :: ls =>
    (decide (pyStrip l = []) || isHeaderLine (pyStrip l)
      || (!hasTitleKeyword (pyStrip l) && !heuristicTitleLine i (pyStrip l)))
      && allSkipped (i + 1) ls

/-- What the company scan computes on a window with no legal-suffix line:
the label lines alone drive the accumulator (the last label line wins). -/
def labelFold : Option PStr → List PStr → Option PStr
  | acc, [] => acc
  | acc, l :: rest =>
    labelFold
      (if pyStrip l = [] then acc
       else if isCompanyLabelLine (pyStrip l) then
         match splitColonSecond (pyStrip l) with
         | some t => some (pyStrip t)
         | none => acc
       else acc)
      rest

/-- The spec's sample raw job description text (§8 of the specification). -/
def c2input : PStr :=
  pyS "Senior Backend Engineer\n\nRequirements:\n- 5+ years experience\n- Strong in Python and AWS\n\nResponsibilities:\n- Build scalable services"

/-- What the source actually produces on `c2input`.  Note that
`"Build scalable services"` lands in `requirements` and `responsibilities`
is empty: the section keyword `"responsibility"` is not a substring of the
header `"responsibilities:"` (singular `...ity` vs plural `...ities`), so
the header never switches the section, while `"requirement"` is a prefix
of `"requirements"` and does. -/
def c2rec : JDRecord :=
  { job_title := some (pyS "Senior Backend Engineer")
    company := none
    location := none
    experience_required := some (pyS "5+")
    skills_required := [pyS "Python", pyS "Aws"]
    job_type := none
    salary_range := none
    job_description := c2input
    requirements := [pyS "5+ years experience", pyS "Strong in Python and AWS",
                     pyS "Build scalable services"]
    responsibilities := []
    fallback_used := true }

/-- A 200-character prompt (67 two-letter words) that does not contain the
letter `q`: used to exhibit non-idempotence of the validation pass. -/
def lp0 : PStr := pyJoin (pyS " ") (List.replicate 67 (pyS "xx"))

/-- A job record whose title is the single letter `q`. -/
def jd0 : JDRecord :=
  { job_title := some (pyS "q")
    company := none
    location := none
    experience_required := none
    skills_required := []
    job_type := none
    salary_range := none
    job_description := []
    requirements := []
    responsibilities := []
    fallback_used := true }

/-- A bare candidate profile with the given name. -/
def mkProfile (n : String) : Profile :=
  { name := pyS n, source := none, title := none, snippet := none,
    repos := none, match_score := none, reasoning := none }

/-- A scoring oracle that always succeeds, assigning 60 to the profile
named `C` and 50 to every other profile. -/
def exOracle : Profile → Option ScoreRes :=
  fun p => some { match_score := if p.name = pyS "C" then 60 else 50, reasoning := pyS "r" }

/-- A scoring oracle whose external call always fails. -/
def failOracle : Profile → Option ScoreRes := fun _ => none

/-- A profile with a title, a source and one repo, whose scoring fails
under `failOracle`. -/
def p0 : Profile :=
  { name := pyS "P", source := some (pyS "github"), title := some (pyS "Dev"),
    snippet := none, repos := some [{ name := pyS "r", stars := 1 }],
    match_score := none, reasoning := none }

/-!
## Helper lemmas: substring search and the colon guard
-/

theorem containsSub_of_leading {n h : PStr} (hp : n <+: h) : containsSub n h = true := by
  cases h with
  | nil =>
    have hn : n = [] := List.prefix_nil.mp hp
    subst hn
    simp [containsSub, List.isPrefixOf]
  | cons c t =>
    have hi : n.isPrefixOf (c :: t) = true := List.isPrefixOf_iff_prefix.mpr hp
    simp [containsSub, hi]

theorem containsSub_append_left (n t : PStr) : containsSub n (n ++ t) = true :=
  containsSub_of_leading ⟨t, rfl⟩

theorem subset_of_containsSub {n h : PStr} (hc : containsSub n h = true) :
    ∀ c ∈ n, c ∈ h := by
  induction h with
  | nil =>
    intro c hcn
    have hn : n = [] := by
      cases n with
      | nil => rfl
      | cons a l => simp [containsSub, List.isPrefixOf] at hc
    subst hn
    cases hcn
  | cons a t ih =>
    intro c hcn
    have hc2 : n.isPrefixOf (a :: t) = true ∨ containsSub n t = true := by
      simpa [containsSub] using hc
    rcases hc2 with h1 | h2
    · have h1b := List.isPrefixOf_iff_prefix.mp h1
      exact List.IsPrefix.subset h1b hcn
    · exact List.mem_cons_of_mem a (ih h2 c hcn)

theorem toLower_eq_colon {c : Char} (hc : c.toLower = ':') : c = ':' := by
  have h2 : (if c.toNat ≥ 65 ∧ c.toNat ≤ 90 then Char.ofNat (c.toNat + 32) else c) = ':' := hc
  by_cases hr : c.toNat ≥ 65 ∧ c.toNat ≤ 90
  · exfalso
    rw [if_pos hr] at h2
    have hv : (c.toNat + 32).isValidChar := Or.inl (by omega)
    rw [Char.ofNat, dif_pos hv] at h2
    have h3 : (Char.ofNatAux (c.toNat + 32) hv).toNat = (':' : Char).toNat :=
      congrArg Char.toNat h2
    have h4 : (Char.ofNatAux (c.toNat + 32) hv).toNat = c.toNat + 32 := rfl
    have h5 : (':' : Char).toNat = 58 := rfl
    omega
  · rw [if_neg hr] at h2
    exact h2

theorem colon_mem_of_lower {l : PStr} (h : ':' ∈ pyLower l) : ':' ∈ l := by
  rcases List.mem_map.mp h with ⟨c, hcl, he⟩
  exact (toLower_eq_colon he) ▸ hcl

theorem splitColonSecond_isSome {l : PStr} (h : ':' ∈ l) :
    (splitColonSecond l).isSome := by
  induction l with
  | nil => cases h
  | cons c cs ih =>
    by_cases he : c = ':'
    · simp [splitColonSecond, he]
    · have hcs : ':' ∈ cs := by
        rcases List.mem_cons.mp h with h1 | h1
        · exact absurd h1.symm he
        · exact h1
      simp [splitColonSecond, he, ih hcs]

theorem company_label_colon {lc : PStr} (h : isCompanyLabelLine lc = true) :
    (splitColonSecond lc).isSome := by
  rcases List.any_eq_true.mp h with ⟨ind, hind, hcon⟩
  have hcolon : ':' ∈ ind := by fin_cases hind <;> decide
  exact splitColonSecond_isSome
    (colon_mem_of_lower (subset_of_containsSub hcon ':' hcolon))

theorem location_label_colon {lc : PStr} (h : isLocationLabelLine lc = true) :
    (splitColonSecond lc).isSome := by
  rcases List.any_eq_true.mp h with ⟨ind, hind, hcon⟩
  have hcolon : ':' ∈ ind := by fin_cases hind <;> decide
  exact splitColonSecond_isSome
    (colon_mem_of_lower (subset_of_containsSub hcon ':' hcolon))

/-!
## Totality of the extraction scans
-/

theorem companyScan_isSome : ∀ (ls : List PStr) (acc : Option PStr),
    (companyScan acc ls).isSome := by
  intro ls
  induction ls with
  | nil => intro acc; simp [companyScan]
  | cons l rest ih =>
    intro acc
    simp only [companyScan]
    by_cases h0 : pyStrip l = []
    · simpa [h0] using ih acc
    · simp only [h0, if_false]
      by_cases hl : isCompanyLabelLine (pyStrip l)
      · obtain ⟨t, ht⟩ := Option.isSome_iff_exists.mp (company_label_colon hl)
        simp only [hl, if_true, ht, Option.map_some]
        by_cases hs : isCompanySuffixLine (pyStrip l)
        · simp [hs]
        · simpa [hs] using ih (some (pyStrip t))
      · simp only [hl, if_false]
        by_cases hs : isCompanySuffixLine (pyStrip l)
        · simp [hs]
        · simpa [hs] using ih acc

theorem locationScan_isSome : ∀ (ls : List PStr) (acc : Option PStr),
    (locationScan acc ls).isSome := by
  intro ls
  induction ls with
  | nil => intro acc; simp [locationScan]
  | cons l rest ih =>
    intro acc
    simp only [locationScan]
    split
    next heq =>
      exfalso
      by_cases hl : isLocationLabelLine (pyStrip l) = true
      · obtain ⟨t, ht⟩ := Option.isSome_iff_exists.mp (location_label_colon hl)
        simp [hl, ht] at heq
      · simp [hl] at heq
    next acc1 heq =>
      split
      · simp
      · exact ih _

theorem bulletTest_isSome {l : PStr} (h : l ≠ []) : (bulletTest l).isSome := by
  cases l with
  | nil => exact absurd rfl h
  | cons c cs =>
    simp only [bulletTest]
    split
    · simp
    · simp [List.head?]

theorem sectionStep_isSome (st : Sec × List PStr × List PStr) (line : PStr) :
    (sectionStep st line).isSome := by
  simp only [sectionStep]
  by_cases h0 : pyStrip line = [] ∨ (pyStrip line).length < 3
  · simp [h0]
  · have hne : pyStrip line ≠ [] := fun h => h0 (Or.inl h)
    obtain ⟨b, hb⟩ := Option.isSome_iff_exists.mp (bulletTest_isSome hne)
    simp only [h0, if_false, hb]
    cases b with
    | false => simp
    | true =>
      cases hl : pyStrip line with
      | nil => exact absurd hl hne
      | cons c cs =>
        simp only [List.head?]
        repeat' split
        all_goals simp

theorem sectionLoop_isSome : ∀ (ls : List PStr) (st : Sec × List PStr × List PStr),
    (sectionLoop st ls).isSome := by
  intro ls
  induction ls with
  | nil => intro st; simp [sectionLoop]
  | cons l rest ih =>
    intro st
    obtain ⟨st1, hst1⟩ := Option.isSome_iff_exists.mp (sectionStep_isSome st l)
    simpa [sectionLoop, hst1] using ih st1

/-!
## The experience patterns always bind their capture group
-/

theorem mergeCaps_isSome_left {g h : Option PStr} (hg : g.isSome) :
    (mergeCaps g h).isSome := by
  cases h <;> simp [mergeCaps, hg]

theorem mergeCaps_isSome_right {g h : Option PStr} (hh : h.isSome) :
    (mergeCaps g h).isSome := by
  cases h with
  | none => cases hh
  | some x => simp [mergeCaps]

theorem capsSome_group (cont : RE → PStr → List (Option PStr × PStr)) (r : RE) (s : PStr) :
    capsSome (reMatchAux cont (.group r) s) := by
  intro x hx
  have hx2 : x ∈ (reMatchAux cont r s).map
      (fun gr => ((some (s.take (s.length - gr.2.length)) : Option PStr), gr.2)) := hx
  rcases List.mem_map.mp hx2 with ⟨gr, _, he⟩
  rw [← he]
  simp

theorem capsSome_seq_left {cont : RE → PStr → List (Option PStr × PStr)} {a b : RE} {s : PStr}
    (h : capsSome (reMatchAux cont a s)) : capsSome (reMatchAux cont (.seq a b) s) := by
  intro x hx
  have hx2 : x ∈ (reMatchAux cont a s).flatMap
      (fun gr => (reMatchAux cont b gr.2).map fun hr => (mergeCaps gr.1 hr.1, hr.2)) := hx
  rcases List.mem_flatMap.mp hx2 with ⟨gr, hgr, hx3⟩
  rcases List.mem_map.mp hx3 with ⟨hr, _, he⟩
  rw [← he]
  exact mergeCaps_isSome_left (h gr hgr)

theorem capsSome_seq_right {cont : RE → PStr → List (Option PStr × PStr)} {a b : RE}
    (h : ∀ s, capsSome (reMatchAux cont b s)) (s : PStr) :
    capsSome (reMatchAux cont (.seq a b) s) := by
  intro x hx
  have hx2 : x ∈ (reMatchAux cont a s).flatMap
      (fun gr => (reMatchAux cont b gr.2).map fun hr => (mergeCaps gr.1 hr.1, hr.2)) := hx
  rcases List.mem_flatMap.mp hx2 with ⟨gr, _, hx3⟩
  rcases List.mem_map.mp hx3 with ⟨hr, hhr, he⟩
  rw [← he]
  exact mergeCaps_isSome_right (h gr.2 hr hhr)

theorem capsSome_expPat1 (cont : RE → PStr → List (Option PStr × PStr)) (s : PStr) :
    capsSome (reMatchAux cont expPat1 s) :=
  capsSome_seq_left (capsSome_group cont reRangeBody s)

theorem capsSome_expPat2 (cont : RE → PStr → List (Option PStr × PStr)) (s : PStr) :
    capsSome (reMatchAux cont expPat2 s) :=
  capsSome_seq_right
    (fun s1 => capsSome_seq_right
      (fun s2 => capsSome_seq_left (capsSome_group cont reRangeBody s2)) s1) s

theorem capsSome_expPat3 (cont : RE → PStr → List (Option PStr × PStr)) (s : PStr) :
    capsSome (reMatchAux cont expPat3 s) :=
  capsSome_seq_left (capsSome_group cont reRangeBody s)

theorem capsSome_expPat4 (cont : RE → PStr → List (Option PStr × PStr)) (s : PStr) :
    capsSome (reMatchAux cont expPat4 s) :=
  capsSome_seq_right
    (fun s1 => capsSome_seq_right
      (fun s2 => capsSome_seq_left (capsSome_group cont reDigits s2)) s1) s

theorem capsSome_expPat5 (cont : RE → PStr → List (Option PStr × PStr)) (s : PStr) :
    capsSome (reMatchAux cont expPat5 s) :=
  capsSome_seq_left (capsSome_group cont reDigits s)

theorem capsSome_reMatch {p : RE} (h : ∀ cont s, capsSome (reMatchAux cont p s))
    (fuel : Nat) (s : PStr) : capsSome (reMatch fuel p s) := by
  cases fuel with
  | zero => exact h _ s
  | succ n => exact h _ s

theorem reSearch_capture_isSome {p : RE} (h : ∀ cont s, capsSome (reMatchAux cont p s)) :
    ∀ (s : PStr) (g : Option PStr), reSearch p s = some g → g.isSome := by
  intro s
  induction s with
  | nil =>
    intro g hg
    simp only [reSearch] at hg
    rcases hm : reMatch 1 p [] with _ | ⟨gr, t⟩
    · rw [hm] at hg; cases hg
    · rw [hm] at hg
      cases hg
      exact capsSome_reMatch h 1 [] gr (by rw [hm]; exact List.mem_cons_self gr t)
  | cons c cs ih =>
    intro g hg
    simp only [reSearch] at hg
    rcases hm : reMatch ((c :: cs).length + 1) p (c :: cs) with _ | ⟨gr, t⟩
    · rw [hm] at hg
      exact ih g hg
    · rw [hm] at hg
      cases hg
      exact capsSome_reMatch h _ _ gr (by rw [hm]; exact List.mem_cons_self gr t)

theorem tryExpPatterns_capture_isSome :
    ∀ (ps : List RE), (∀ p ∈ ps, ∀ cont s, capsSome (reMatchAux cont p s)) →
    ∀ (s : PStr) (g : Option PStr), tryExpPatterns ps s = some g → g.isSome := by
  intro ps
  induction ps with
  | nil => intro _ s g hg; cases hg
  | cons p rest ih =>
    intro hall s g hg
    simp only [tryExpPatterns] at hg
    rcases hs : reSearch p s with _ | g1
    · rw [hs] at hg
      exact ih (fun q hq => hall q (List.mem_cons_of_mem p hq)) s g hg
    · rw [hs] at hg
      cases hg
      exact reSearch_capture_isSome (hall p (List.mem_cons_self p rest)) s g hs

theorem experienceExtract_isSome (tl : PStr) : (experienceExtract tl).isSome := by
  rcases ht : tryExpPatterns expPatterns tl with _ | g
  · simp [experienceExtract, ht]
  · have hg : g.isSome := by
      refine tryExpPatterns_capture_isSome expPatterns ?_ tl g ht
      intro p hp
      have hp2 : p = expPat1 ∨ p = expPat2 ∨ p = expPat3 ∨ p = expPat4 ∨ p = expPat5 := by
        simpa [expPatterns] using hp
      rcases hp2 with rfl | rfl | rfl | rfl | rfl
      · exact capsSome_expPat1
      · exact capsSome_expPat2
      · exact capsSome_expPat3
      · exact capsSome_expPat4
      · exact capsSome_expPat5
    rcases g with _ | v
    · cases hg
    · simp [experienceExtract, ht]

/-!
## Totality and shape of the fallback extractor
-/

theorem fallbackStructureJD_eq (raw : PStr) :
    ∃ comp loc expv st,
      companyScan none ((splitLines raw).take 15) = some comp
      ∧ locationScan none (splitLines raw) = some loc
      ∧ experienceExtract (pyLower raw) = some expv
      ∧ sectionLoop (Sec.noSec, [], []) (splitLines raw) = some st
      ∧ fallbackStructureJD raw = some
          { job_title := titleScan 0 ((splitLines raw).take 10)
            company := postCompany comp
            location := postLocation loc
            experience_required := expv
            skills_required := skillsExtract (pyLower raw)
            job_type := none
            salary_range := none
            job_description := raw
            requirements := st.2.1.take 10
            responsibilities := st.2.2.take 10
            fallback_used := true } := by
  obtain ⟨comp, hcomp⟩ := Option.isSome_iff_exists.mp (companyScan_isSome ((splitLines raw).take 15) none)
  obtain ⟨loc, hloc⟩ := Option.isSome_iff_exists.mp (locationScan_isSome (splitLines raw) none)
  obtain ⟨expv, hexp⟩ := Option.isSome_iff_exists.mp (experienceExtract_isSome (pyLower raw))
  obtain ⟨st, hst⟩ := Option.isSome_iff_exists.mp (sectionLoop_isSome (splitLines raw) (Sec.noSec, [], []))
  refine ⟨comp, loc, expv, st, hcomp, hloc, hexp, hst, ?_⟩
  simp only [fallbackStructureJD, hcomp, hloc, hexp, hst]

/-- Field view of a successful extraction: the title and company fields
of any record returned by the fallback extractor. -/
theorem fallback_fields {raw : PStr} {r : JDRecord}
    (h : fallbackStructureJD raw = some r) :
    r.job_title = titleScan 0 ((splitLines raw).take 10)
    ∧ ∃ comp, companyScan none ((splitLines raw).take 15) = some comp
        ∧ r.company = postCompany comp := by
  obtain ⟨comp, loc, expv, st, hc, _, _, _, heq⟩ := fallbackStructureJD_eq raw
  rw [heq] at h
  have hr := Option.some.inj h
  exact ⟨by rw [← hr], comp, hc, by rw [← hr]⟩

/-- Claim C1: for every input string, the rule-based fallback extractor
never raises (the embedding returns `some`, i.e. no exception path is
reachable — in particular the `split(':', 1)[1]` indexing and the
`line[0]` bullet test are always guarded) and produces a record whose
`job_description` echoes the input and whose `fallback_used` flag is set;
its `skills_required`, `requirements` and `responsibilities` fields are
total (non-null) `List` values by construction.  This holds for the empty
input and for inputs with lines shorter than 3 characters, which the
section loop skips before any indexing. -/
theorem fallback_extractor_total (raw : PStr) :
    ∃ r : JDRecord, fallbackStructureJD raw = some r
      ∧ r.job_description = raw ∧ r.fallback_used = true := by
  obtain ⟨comp, loc, expv, st, _, _, _, _, heq⟩ := fallbackStructureJD_eq raw
  exact ⟨_, heq, rfl, rfl⟩

/-- Claim C10: the fallback extractor always succeeds and returns the raw
input text as `job_description`, completely unmodified (the fallback path
performs no cleaning of the description text). -/
theorem fallback_job_description_identity (raw : PStr) :
    (fallbackStructureJD raw).map JDRecord.job_description = some raw := by
  obtain ⟨comp, loc, expv, st, _, _, _, _, heq⟩ := fallbackStructureJD_eq raw
  rw [heq]
  rfl

set_option maxRecDepth 10000 in
/-- Claim C2 (evaluation at the spec's sample input): the extractor
returns exactly `c2rec`.  The claim's expectations about `job_title`,
`experience_required`, `skills_required` and the two `requirements`
entries hold, but `"Build scalable services"` is appended to
`requirements` and `responsibilities` is empty: the section keyword
`"responsibility"` is not a substring of the header
`"responsibilities:"` (singular ends in `ity`, the plural header in
`ities`), so the header never switches `current_section`, while
`"requirement"` does match `"requirements:"`.  The code therefore
contradicts the spec's own test vector on the `responsibilities` field. -/
theorem fallback_sample_divergence :
    fallbackStructureJD c2input = some c2rec
    ∧ c2rec.job_title = some (pyS "Senior Backend Engineer")
    ∧ c2rec.experience_required = some (pyS "5+")
    ∧ pyS "Python" ∈ c2rec.skills_required ∧ pyS "Aws" ∈ c2rec.skills_required
    ∧ pyS "5+ years experience" ∈ c2rec.requirements
    ∧ pyS "Strong in Python and AWS" ∈ c2rec.requirements
    ∧ pyS "Build scalable services" ∈ c2rec.requirements
    ∧ c2rec.responsibilities = [] := by
  refine ⟨by decide, rfl, rfl, by decide, by decide, by decide, by decide, by decide, rfl⟩

/-!
## Title extraction: keyword lines versus the short-line heuristic (C7)
-/

/-- A line that the title scan passes over leaves the scan unchanged
(next line, next index). -/
theorem titleScan_skip {i : Nat} {l : PStr}
    (h : (decide (pyStrip l = []) || isHeaderLine (pyStrip l)
      || (!hasTitleKeyword (pyStrip l) && !heuristicTitleLine i (pyStrip l))) = true)
    (rest : List PStr) :
    titleScan i (l :: rest) = titleScan (i + 1) rest := by
  by_cases h0 : pyStrip l = []
  · simp [titleScan, h0]
  · by_cases hh : isHeaderLine (pyStrip l) = true
    · simp [titleScan, h0, hh]
    · have h3 : hasTitleKeyword (pyStrip l) = false
          ∧ heuristicTitleLine i (pyStrip l) = false := by
        simp [h0, hh] at h
        exact ⟨h.1, h.2⟩
      simp [titleScan, h0, hh, h3.1, h3.2]

/-- If every line before `line` is passed over and `line` is a non-blank,
non-header line containing a role keyword, the title scan accepts `line`
(with its label stripped). -/
theorem titleScan_keyword_first :
    ∀ (pre : List PStr) (i : Nat) (line : PStr) (post : List PStr),
      allSkipped i pre = true → pyStrip line ≠ [] →
      isHeaderLine (pyStrip line) = false → hasTitleKeyword (pyStrip line) = true →
      titleScan i (pre ++ line :: post) = some (stripTitleLabels (pyStrip line)) := by
  intro pre
  induction pre with
  | nil =>
    intro i line post _ h1 h2 h3
    simp [titleScan, h1, h2, h3]
  | cons l ls ih =>
    intro i line post hskip h1 h2 h3
    have hsk : (decide (pyStrip l = []) || isHeaderLine (pyStrip l)
        || (!hasTitleKeyword (pyStrip l) && !heuristicTitleLine i (pyStrip l))) = true
        ∧ allSkipped (i + 1) ls = true := by
      simpa [allSkipped] using hskip
    rw [List.cons_append, titleScan_skip hsk.1]
    exact ih (i + 1) line post hsk.2 h1 h2 h3

set_option maxRecDepth 4000 in
/-- Claim C7 counterexample: on `"Acme Jobs\nSenior Engineer"` the first
10 lines contain the role-keyword line `"Senior Engineer"`, yet the
extractor's `job_title` is the keyword-free first line `"Acme Jobs"`
accepted by the short-line heuristic — the heuristic is applied inside
the same left-to-right scan, not only after the keyword search fails. -/
theorem title_heuristic_preempts_cx :
    (fallbackStructureJD (pyS "Acme Jobs\nSenior Engineer")).map JDRecord.job_title
      = some (some (pyS "Acme Jobs"))
    ∧ hasTitleKeyword (pyS "Acme Jobs") = false
    ∧ hasTitleKeyword (pyS "Senior Engineer") = true
    ∧ (splitLines (pyS "Acme Jobs\nSenior Engineer")).take 10
        = [pyS "Acme Jobs", pyS "Senior Engineer"]
    ∧ some (pyS "Acme Jobs") ≠ some (stripTitleLabels (pyS "Senior Engineer")) := by
  refine ⟨by decide, by decide, by decide, by decide, by decide⟩

/-- Claim C7 (amended): the short-line heuristic can pre-empt a later
role-keyword line, because both tests run in the same left-to-right scan;
the extractor's `job_title` is taken from the first role-keyword line only
when every *earlier* scanned line is blank, a header line, or rejected by
both the keyword test and the index-dependent heuristic. -/
theorem title_keyword_before_heuristic :
    ∀ (raw : PStr) (r : JDRecord) (pre : List PStr) (line : PStr) (post : List PStr),
      fallbackStructureJD raw = some r →
      (splitLines raw).take 10 = pre ++ line :: post →
      allSkipped 0 pre = true →
      pyStrip line ≠ [] → isHeaderLine (pyStrip line) = false →
      hasTitleKeyword (pyStrip line) = true →
      r.job_title = some (stripTitleLabels (pyStrip line)) := by
  intro raw r pre line post h hsplit hskip h1 h2 h3
  have hf := (fallback_fields h).1
  rw [hf, hsplit]
  exact titleScan_keyword_first pre 0 line post hskip h1 h2 h3

/-- Witness for the amended C7 theorem at the concrete input
`"Senior Engineer"`. -/
theorem title_keyword_before_heuristic_witness :
    ∃ r, fallbackStructureJD (pyS "Senior Engineer") = some r
      ∧ r.job_title = some (stripTitleLabels (pyS "Senior Engineer")) := by
  obtain ⟨c, l, e, s, _, _, _, _, heq⟩ := fallbackStructureJD_eq (pyS "Senior Engineer")
  refine ⟨_, heq, ?_⟩
  exact title_keyword_before_heuristic _ _ [] (pyS "Senior Engineer") [] heq
    (by decide) (by decide) (by decide) (by decide) (by decide)

/-!
## Company extraction: label lines versus legal-suffix lines (C8)
-/

theorem labelFold_append :
    ∀ (xs : List PStr) (acc : Option PStr) (ys : List PStr),
      labelFold acc (xs ++ ys) = labelFold (labelFold acc xs) ys := by
  intro xs
  induction xs with
  | nil => intro acc ys; rfl
  | cons l rest ih => intro acc ys; simp only [List.cons_append, labelFold]; exact ih _ ys

theorem labelFold_no_label :
    ∀ (ls : List PStr) (acc : Option PStr),
      (∀ l ∈ ls, pyStrip l = [] ∨ isCompanyLabelLine (pyStrip l) = false) →
      labelFold acc ls = acc := by
  intro ls
  induction ls with
  | nil => intro acc _; rfl
  | cons l rest ih =>
    intro acc h
    have hl := h l (List.mem_cons_self l rest)
    have hrest := fun q hq => h q (List.mem_cons_of_mem l hq)
    rcases hl with h0 | hnl
    · simp only [labelFold, h0, if_pos rfl]
      simpa [h0] using ih acc hrest
    · by_cases h0 : pyStrip l = []
      · simp only [labelFold, if_pos h0]
        exact ih acc hrest
      · simp only [labelFold, if_neg h0, hnl]
        simpa using ih acc hrest

theorem companyScan_eq_labelFold :
    ∀ (ls : List PStr) (acc : Option PStr),
      (∀ l ∈ ls, isCompanySuffixLine (pyStrip l) = false) →
      companyScan acc ls = some (labelFold acc ls) := by
  intro ls
  induction ls with
  | nil => intro acc _; rfl
  | cons l rest ih =>
    intro acc h
    have hsuf := h l (List.mem_cons_self l rest)
    have hrest := fun q hq => h q (List.mem_cons_of_mem l hq)
    by_cases h0 : pyStrip l = []
    · simp only [companyScan, labelFold, h0, if_pos rfl]
      simpa [h0] using ih acc hrest
    · by_cases hlab : isCompanyLabelLine (pyStrip l) = true
      · obtain ⟨t, ht⟩ := Option.isSome_iff_exists.mp (company_label_colon hlab)
        simp only [companyScan, labelFold, h0, if_neg h0, hlab, if_true, ht,
          Option.map_some', hsuf]
        simpa [hsuf] using ih (some (pyStrip t)) hrest
      · simp only [companyScan, labelFold, h0, if_neg h0, hlab]
        simpa [hsuf, hlab] using ih acc hrest

set_option maxRecDepth 4000 in
/-- Claim C8 counterexample: on `"Company: Acme\nBeta Technologies"` the
first line carries the explicit label `company:`, yet the returned
company is the legal-suffix line `"Beta Technologies"`: after the label
assignment the scan keeps going (no break), and a later suffix line with
at most 8 words overwrites the labelled value and stops the scan. -/
theorem company_label_overridden_cx :
    (fallbackStructureJD (pyS "Company: Acme\nBeta Technologies")).map JDRecord.company
      = some (some (pyS "Beta Technologies"))
    ∧ isCompanyLabelLine (pyS "Company: Acme") = true
    ∧ isCompanySuffixLine (pyS "Beta Technologies") = true
    ∧ some (pyS "Beta Technologies") ≠ some (pyS "Acme") := by
  refine ⟨by decide, by decide, by decide, by decide⟩

/-- Claim C8 (amended): an explicit label line determines the company
field only when no line among the first 15 is a legal-suffix line (suffix
keyword and at most 8 words) — such a line overwrites any labelled value
and stops the scan — and, when several label lines occur, the last one
wins.  Under those conditions the company is the text after the colon of
the label line, post-processed. -/
theorem company_label_when_no_suffix_line :
    ∀ (raw : PStr) (r : JDRecord) (pre : List PStr) (line : PStr) (post : List PStr),
      fallbackStructureJD raw = some r →
      (splitLines raw).take 15 = pre ++ line :: post →
      (∀ l ∈ (splitLines raw).take 15, isCompanySuffixLine (pyStrip l) = false) →
      isCompanyLabelLine (pyStrip line) = true →
      (∀ l ∈ post, pyStrip l = [] ∨ isCompanyLabelLine (pyStrip l) = false) →
      ∃ t, splitColonSecond (pyStrip line) = some t
        ∧ r.company = postCompany (some (pyStrip t)) := by
  intro raw r pre line post h hsplit hnosuf hlab hnopost
  obtain ⟨_, comp, hcomp, hcompany⟩ := fallback_fields h
  obtain ⟨t, ht⟩ := Option.isSome_iff_exists.mp (company_label_colon hlab)
  refine ⟨t, ht, ?_⟩
  rw [hsplit] at hcomp hnosuf
  rw [companyScan_eq_labelFold _ _ hnosuf] at hcomp
  have hcompv : comp = labelFold none (pre ++ line :: post) := (Option.some.inj hcomp).symm
  rw [labelFold_append] at hcompv
  have hne : pyStrip line ≠ [] := by
    intro h0
    rw [h0] at hlab
    exact absurd hlab (by decide)
  have hstep : labelFold (labelFold none pre) (line :: post)
      = labelFold (some (pyStrip t)) post := by
    simp [labelFold, hne, hlab, ht]
  rw [hstep, labelFold_no_label post _ hnopost] at hcompv
  rw [hcompany, hcompv]

/-- Witness for the amended C8 theorem at the concrete input
`"Company: Acme"`. -/
theorem company_label_when_no_suffix_line_witness :
    ∃ r t, fallbackStructureJD (pyS "Company: Acme") = some r
      ∧ splitColonSecond (pyStrip (pyS "Company: Acme")) = some t
      ∧ r.company = postCompany (some (pyStrip t)) := by
  obtain ⟨c, l, e, s, _, _, _, _, heq⟩ := fallbackStructureJD_eq (pyS "Company: Acme")
  obtain ⟨t, ht, hcomp⟩ := company_label_when_no_suffix_line _ _ [] (pyS "Company: Acme") []
    heq (by decide) (by decide) (by decide) (by decide)
  exact ⟨_, t, heq, ht, hcomp⟩

/-!
## The stable descending sort of the ranking engine (C3, C6)
-/

theorem mem_insertDesc {a x : Profile} :
    ∀ l, a ∈ insertDesc x l ↔ a = x ∨ a ∈ l := by
  intro l
  induction l with
  | nil => simp [insertDesc]
  | cons y ys ih =>
    simp only [insertDesc]
    split
    · simp [List.mem_cons]
    · simp only [List.mem_cons, ih]
      tauto

theorem pairwise_insertDesc {x : Profile} {l : List Profile}
    (h : List.Pairwise (fun a b => scoreKey b ≤ scoreKey a) l) :
    List.Pairwise (fun a b => scoreKey b ≤ scoreKey a) (insertDesc x l) := by
  induction l with
  | nil => simp [insertDesc]
  | cons y ys ih =>
    rcases List.pairwise_cons.mp h with ⟨hy, hys⟩
    simp only [insertDesc]
    split
    next hle =>
      refine List.pairwise_cons.mpr ⟨?_, h⟩
      intro z hz
      rcases List.mem_cons.mp hz with rfl | hz2
      · exact hle
      · exact le_trans (hy z hz2) hle
    next hgt =>
      push_neg at hgt
      refine List.pairwise_cons.mpr ⟨?_, ih hys⟩
      intro z hz
      rcases (mem_insertDesc ys).mp hz with rfl | hz2
      · exact le_of_lt hgt
      · exact hy z hz2

theorem pairwise_sortDesc :
    ∀ l : List Profile, List.Pairwise (fun a b => scoreKey b ≤ scoreKey a) (sortDesc l) := by
  intro l
  induction l with
  | nil => simp [sortDesc]
  | cons x xs ih => exact pairwise_insertDesc ih

theorem filter_insertDesc (k : Int) (x : Profile) :
    ∀ l, (insertDesc x l).filter (fun p => decide (scoreKey p = k))
      = if scoreKey x = k then x :: l.filter (fun p => decide (scoreKey p = k))
        else l.filter (fun p => decide (scoreKey p = k)) := by
  intro l
  induction l with
  | nil =>
    by_cases hk : scoreKey x = k <;> simp [insertDesc, List.filter, hk]
  | cons y ys ih =>
    simp only [insertDesc]
    split
    next hle =>
      by_cases hk : scoreKey x = k <;> simp [List.filter_cons, hk]
    next hgt =>
      push_neg at hgt
      by_cases hk : scoreKey x = k
      · have hyk : ¬ scoreKey y = k := by rw [hk] at hgt; exact (ne_of_gt hgt)
        simp [List.filter_cons, hyk, ih, hk]
      · by_cases hyk : scoreKey y = k <;> simp [List.filter_cons, hyk, ih, hk]

theorem filter_sortDesc (k : Int) :
    ∀ l : List Profile, (sortDesc l).filter (fun p => decide (scoreKey p = k))
      = l.filter (fun p => decide (scoreKey p = k)) := by
  intro l
  induction l with
  | nil => rfl
  | cons x xs ih =>
    by_cases hk : scoreKey x = k <;>
      simp [sortDesc, filter_insertDesc, hk, ih, List.filter_cons]

theorem mem_sortDesc {a : Profile} : ∀ l, a ∈ l → a ∈ sortDesc l := by
  intro l
  induction l with
  | nil => intro h; cases h
  | cons x xs ih =>
    intro h
    rcases List.mem_cons.mp h with rfl | h2
    · exact (mem_insertDesc _).mpr (Or.inl rfl)
    · exact (mem_insertDesc _).mpr (Or.inr (ih h2))

/-- Claim C3: for every scoring oracle and every profile list, the output
of `rank_profiles` is sorted by `match_score` descending (pairwise), and
profiles with equal scores keep their relative input order: for every
score `k`, the output's sublist of score-`k` profiles equals the scored
input's sublist of score-`k` profiles in order (Python's `list.sort` is
stable).  In particular, profiles A, B, C scored 50, 50, 60 come out as
C, A, B. -/
theorem rank_profiles_sorted_stable :
    ∀ (oracle : Profile → Option ScoreRes) (profiles : List Profile),
      List.Pairwise (fun a b => scoreKey b ≤ scoreKey a) (rankProfiles oracle profiles)
      ∧ (∀ k : Int, (rankProfiles oracle profiles).filter (fun p => decide (scoreKey p = k))
          = (profiles.map (scoreStep oracle)).filter (fun p => decide (scoreKey p = k)))
      ∧ rankProfiles exOracle [mkProfile "A", mkProfile "B", mkProfile "C"]
          = [{ mkProfile "C" with match_score := some 60, reasoning := some (pyS "r") },
             { mkProfile "A" with match_score := some 50, reasoning := some (pyS "r") },
             { mkProfile "B" with match_score := some 50, reasoning := some (pyS "r") }] := by
  intro oracle profiles
  refine ⟨?_, ?_, by decide⟩
  · cases profiles with
    | nil => simp [rankProfiles]
    | cons p ps => simpa [rankProfiles] using pairwise_sortDesc ((p :: ps).map (scoreStep oracle))
  · intro k
    cases profiles with
    | nil => simp [rankProfiles]
    | cons p ps => simpa [rankProfiles] using filter_sortDesc k ((p :: ps).map (scoreStep oracle))

theorem join_ne_nil_of_bits {bits : List PStr} (hne : bits ≠ [])
    (hall : ∀ b ∈ bits, b ≠ []) : pyJoin (pyS ", ") bits ≠ [] := by
  cases bits with
  | nil => exact absurd rfl hne
  | cons x xs =>
    cases xs with
    | nil => simpa [pyJoin] using hall x (by simp)
    | cons y ys =>
      have hx := hall x (by simp)
      simp only [pyJoin]
      cases x with
      | nil => exact absurd rfl hx
      | cons c cs => simp

/-- Every component of the reasoning bits is a non-empty string. -/
theorem reasoningBits_ne_nil (p : Profile) : ∀ b ∈ reasoningBits p, b ≠ [] := by
  intro b hbmem
  rcases List.mem_append.mp hbmem with h1 | h2
  · simpa using (List.mem_filter.mp h1).2
  · rcases hr : truthyRepos p.repos with _ | _
    · rw [hr] at h2
      cases h2
    · rw [hr] at h2
      have hb2 : b = pyS "GitHub repos present" := by simpa using h2
      subst hb2
      decide

/-- The synthesized fallback reasoning in the form the specification
words it: "Insufficient data." exactly when no component is available. -/
theorem fallbackReasoning_claim_form (p : Profile) :
    fallbackReasoning p =
      (if reasoningBits p = [] then pyS "Insufficient data."
       else pyJoin (pyS ", ") (reasoningBits p)) := by
  simp only [fallbackReasoning]
  by_cases hb : reasoningBits p = []
  · simp [hb, pyJoin]
  · have hj := join_ne_nil_of_bits hb (reasoningBits_ne_nil p)
    simp [hb, hj]

/-- Claim C6: when the external scoring call fails for a profile, that
profile's `match_score` becomes its previous value or 0, its `reasoning`
becomes the non-empty values of `title` and `source` joined by `", "`
(with `"GitHub repos present"` appended when repos is non-empty, and
`"Insufficient data."` when nothing is available), and every profile in
the batch is scored independently and appears in the output. -/
theorem rank_failure_isolation :
    ∀ (oracle : Profile → Option ScoreRes) (p : Profile),
      oracle p = none →
      (scoreStep oracle p).match_score = some (p.match_score.getD 0)
      ∧ (scoreStep oracle p).reasoning = some
          (if reasoningBits p = [] then pyS "Insufficient data."
           else pyJoin (pyS ", ") (reasoningBits p))
      ∧ ∀ (profiles : List Profile) (q : Profile), q ∈ profiles →
          scoreStep oracle q ∈ rankProfiles oracle profiles := by
  intro oracle p h
  refine ⟨?_, ?_, ?_⟩
  · simp only [scoreStep, h]
    cases hm : p.match_score with
    | none => simp
    | some v =>
      by_cases hv : v = 0 <;> simp [hv]
  · simp only [scoreStep, h]
    exact congrArg some (fallbackReasoning_claim_form p)
  · intro profiles q hq
    cases profiles with
    | nil => cases hq
    | cons a as =>
      have hmem : scoreStep oracle q ∈ (a :: as).map (scoreStep oracle) :=
        List.mem_map_of_mem _ hq
      simpa [rankProfiles] using mem_sortDesc _ hmem

/-- Witness for the C6 theorem: a concrete profile with a title, source
and one repo whose scoring call fails. -/
theorem rank_failure_isolation_witness :
    failOracle p0 = none
    ∧ (scoreStep failOracle p0).match_score = some (p0.match_score.getD 0)
    ∧ (scoreStep failOracle p0).reasoning = some (pyS "Dev, github, GitHub repos present")
    ∧ scoreStep failOracle p0 ∈ rankProfiles failOracle [p0] := by
  have h := rank_failure_isolation failOracle p0 rfl
  refine ⟨rfl, h.1, ?_, h.2.2 [p0] p0 (by simp)⟩
  rw [h.2.1]
  decide

/-!
## The prompt validation/optimization pass (C4, C9)
-/

theorem ensureTitle_contains {t : PStr} (ht : t ≠ []) (p : PStr) :
    containsSub (pyLower t) (pyLower (ensureTitle t p)) = true := by
  by_cases hc : containsSub (pyLower t) (pyLower p) = true
  · have hout : ensureTitle t p = p := by
      simp only [ensureTitle]
      rw [if_neg ht, if_pos hc]
    rw [hout]
    exact hc
  · have hout : ensureTitle t p = t ++ pyS " " ++ p := by
      simp only [ensureTitle]
      rw [if_neg ht, if_neg hc]
    have hsplit : pyLower (t ++ pyS " " ++ p)
        = pyLower t ++ (pyLower (pyS " ") ++ pyLower p) := by
      simp [pyLower]
    rw [hout, hsplit]
    exact containsSub_append_left _ _

/-- Claim C9: for every pair of prompts and every record whose
`job_title` is a non-empty string, both strings returned by the
validation pass contain the job title case-insensitively (the check the
source itself performs before prepending). -/
theorem prompts_contain_title :
    ∀ (lp gp : PStr) (jd : JDRecord) (t : PStr),
      jd.job_title = some t → t ≠ [] →
      containsSub (pyLower t) (pyLower (validate_and_optimize_prompts lp gp jd).1) = true
      ∧ containsSub (pyLower t) (pyLower (validate_and_optimize_prompts lp gp jd).2) = true := by
  intro lp gp jd t hjt ht
  simp only [validate_and_optimize_prompts, hjt, Option.getD_some]
  exact ⟨ensureTitle_contains ht _, ensureTitle_contains ht _⟩

/-- Witness for the C9 theorem at concrete prompts and title. -/
theorem prompts_contain_title_witness :
    jd0.job_title = some (pyS "q") ∧ pyS "q" ≠ []
    ∧ containsSub (pyLower (pyS "q"))
        (pyLower (validate_and_optimize_prompts (pyS "x") (pyS "y") jd0).1) = true
    ∧ containsSub (pyLower (pyS "q"))
        (pyLower (validate_and_optimize_prompts (pyS "x") (pyS "y") jd0).2) = true := by
  have h := prompts_contain_title (pyS "x") (pyS "y") jd0 (pyS "q") rfl (by decide)
  exact ⟨rfl, by decide, h.1, h.2⟩

set_option maxRecDepth 10000 in
/-- Claim C4 counterexample: with job title `"q"` and a 200-character
prompt of 67 words not containing `q`, the first pass leaves the length
guard untouched (200 is not > 200) and prepends the title, producing 202
characters; the second pass then truncates to the first 25 words.
Applying the pass twice differs from applying it once. -/
theorem validate_pass_not_idempotent_cx :
    validate_and_optimize_prompts
        (validate_and_optimize_prompts lp0 (pyS "g") jd0).1
        (validate_and_optimize_prompts lp0 (pyS "g") jd0).2 jd0
      ≠ validate_and_optimize_prompts lp0 (pyS "g") jd0 := by
  decide

theorem truncate25_short {p : PStr} (h : p.length ≤ 200) : truncate25 p = p := by
  simp [truncate25, Nat.not_lt.mpr h]

theorem ensureTitle_idem (t p : PStr) :
    ensureTitle t (ensureTitle t p) = ensureTitle t p := by
  by_cases ht : t = []
  · simp [ensureTitle, ht]
  · have hcq := ensureTitle_contains ht p
    generalize hq : ensureTitle t p = q at hcq ⊢
    simp only [ensureTitle]
    rw [if_neg ht, if_pos hcq]

/-- Claim C4 (amended): the validation/optimization pass is *not*
idempotent in general — prepending the job title can push a prompt over
200 characters, and a second application then truncates it to 25 words
(see the counterexample).  It is idempotent whenever the two strings
returned by the first application are at most 200 characters long: the
length guard is then a no-op and the title check is already satisfied. -/
theorem validate_pass_idempotent_when_short :
    ∀ (lp gp : PStr) (jd : JDRecord),
      (validate_and_optimize_prompts lp gp jd).1.length ≤ 200 →
      (validate_and_optimize_prompts lp gp jd).2.length ≤ 200 →
      validate_and_optimize_prompts (validate_and_optimize_prompts lp gp jd).1
        (validate_and_optimize_prompts lp gp jd).2 jd
        = validate_and_optimize_prompts lp gp jd := by
  intro lp gp jd h1 h2
  simp only [validate_and_optimize_prompts] at h1 h2 ⊢
  rw [truncate25_short h1, truncate25_short h2, ensureTitle_idem, ensureTitle_idem]

/-- Witness for the amended C4 theorem at short concrete prompts. -/
theorem validate_pass_idempotent_when_short_witness :
    (validate_and_optimize_prompts (pyS "hello") (pyS "there") jd0).1.length ≤ 200
    ∧ (validate_and_optimize_prompts (pyS "hello") (pyS "there") jd0).2.length ≤ 200
    ∧ validate_and_optimize_prompts
        (validate_and_optimize_prompts (pyS "hello") (pyS "there") jd0).1
        (validate_and_optimize_prompts (pyS "hello") (pyS "there") jd0).2 jd0
        = validate_and_optimize_prompts (pyS "hello") (pyS "there") jd0 := by
  refine ⟨by decide, by decide,
    validate_pass_idempotent_when_short _ _ _ (by decide) (by decide)⟩

/-!
## The resume similarity scorer (C5)
-/

theorem mem_pyDedupFirstGo {x : PStr} :
    ∀ (l seen : List PStr), x ∈ pyDedupFirstGo seen l → x ∈ l ∧ x ∉ seen := by
  intro l
  induction l with
  | nil => intro seen h; cases h
  | cons y ys ih =>
    intro seen h
    simp only [pyDedupFirstGo] at h
    by_cases hy : y ∈ seen
    · rw [if_pos hy] at h
      obtain ⟨h1, h2⟩ := ih seen h
      exact ⟨List.mem_cons_of_mem y h1, h2⟩
    · rw [if_neg hy] at h
      rcases List.mem_cons.mp h with rfl | h2
      · exact ⟨List.mem_cons_self _ _, hy⟩
      · obtain ⟨h1, h3⟩ := ih (y :: seen) h2
        exact ⟨List.mem_cons_of_mem y h1, fun hxs => h3 (List.mem_cons_of_mem y hxs)⟩

theorem nodup_pyDedupFirstGo : ∀ (l seen : List PStr), (pyDedupFirstGo seen l).Nodup := by
  intro l
  induction l with
  | nil => intro seen; simp [pyDedupFirstGo]
  | cons y ys ih =>
    intro seen
    simp only [pyDedupFirstGo]
    by_cases hy : y ∈ seen
    · rw [if_pos hy]
      exact ih seen
    · rw [if_neg hy]
      refine List.nodup_cons.mpr ⟨?_, ih (y :: seen)⟩
      intro hmem
      exact (mem_pyDedupFirstGo ys (y :: seen) hmem).2 (List.mem_cons_self y seen)

theorem nodup_simpleTokenize (s : PStr) : (simpleTokenize s).Nodup :=
  nodup_pyDedupFirstGo _ _

theorem tokOverlap_le {r j : List PStr} (hr : r.Nodup) : tokOverlap r j ≤ j.length := by
  unfold tokOverlap
  have hnd : (r.filter (fun t => decide (t ∈ j))).Nodup := hr.filter _
  have hsub : r.filter (fun t => decide (t ∈ j)) ⊆ j := by
    intro x hx
    simpa using (List.mem_filter.mp hx).2
  calc (r.filter (fun t => decide (t ∈ j))).length
      = (r.filter (fun t => decide (t ∈ j))).toFinset.card := by
        rw [List.toFinset_card_of_nodup hnd]
    _ ≤ j.toFinset.card := by
        apply Finset.card_le_card
        intro x hx
        exact List.mem_toFinset.mpr (hsub (List.mem_toFinset.mp hx))
    _ ≤ j.length := List.toFinset_card_le j

theorem pyRoundDiv_le {o d : Nat} (h : o ≤ d) (hd : 1 ≤ d) :
    pyRoundDiv (100 * o) d ≤ 100 := by
  have hdm := Nat.div_add_mod (100 * o) d
  have hmul : 100 * o ≤ 100 * d := by omega
  have hq : 100 * o / d ≤ 100 := by
    have h2 : 100 * o / d ≤ 100 * d / d := Nat.div_le_div_right hmul
    have h3 : 100 * d / d = 100 := Nat.mul_div_cancel 100 (by omega)
    rwa [h3] at h2
  have hrlt : 100 * o % d < d := Nat.mod_lt _ (by omega)
  simp only [pyRoundDiv]
  by_cases hq100 : 100 * o / d = 100
  · rw [hq100] at hdm
    have hr0 : 100 * o % d = 0 := by omega
    rw [if_pos (show 2 * (100 * o % d) < d by omega)]
    omega
  · repeat' split
    all_goals omega

theorem matchedMsg_ne_insufficient (o d : Nat) : matchedMsg o d ≠ insufficientMsg := by
  intro h
  have h1 : (matchedMsg o d).head? = some 'M' := rfl
  rw [h] at h1
  exact absurd h1 (by decide)

/-- Claim C5: the resume scorer returns
`(0, "Insufficient data to compute score")` exactly when either token set
is empty; otherwise it returns the rounded percentage of job tokens found
in the resume with the `"Matched {overlap} of {denom} JD terms."`
reasoning, and the score always lies between 0 and 100.  Tokens are the
lower-cased maximal `[a-zA-Z0-9+#.]` runs minus the stop-word set
(`simpleTokenize`); the rounding is Python's round-half-to-even. -/
theorem score_resume_spec :
    ∀ (resume : PStr) (jd : Option JDRecord) (fb : Option PStr),
      (scoreResumeAgainstJD resume jd fb = ((0 : Int), insufficientMsg)
        ↔ (simpleTokenize resume = [] ∨ simpleTokenize (jdText jd fb) = []))
      ∧ (simpleTokenize resume ≠ [] → simpleTokenize (jdText jd fb) ≠ [] →
          scoreResumeAgainstJD resume jd fb =
            ((pyRoundDiv
                (100 * tokOverlap (simpleTokenize resume) (simpleTokenize (jdText jd fb)))
                (simpleTokenize (jdText jd fb)).length : Int),
             matchedMsg (tokOverlap (simpleTokenize resume) (simpleTokenize (jdText jd fb)))
               (simpleTokenize (jdText jd fb)).length))
      ∧ 0 ≤ (scoreResumeAgainstJD resume jd fb).1
      ∧ (scoreResumeAgainstJD resume jd fb).1 ≤ 100 := by
  intro resume jd fb
  by_cases hempty : simpleTokenize resume = [] ∨ simpleTokenize (jdText jd fb) = []
  · have heq : scoreResumeAgainstJD resume jd fb = ((0 : Int), insufficientMsg) := by
      simp only [scoreResumeAgainstJD]
      rw [if_pos hempty]
    refine ⟨⟨fun _ => hempty, fun _ => heq⟩, ?_, ?_, ?_⟩
    · intro h1 h2
      rcases hempty with h | h
      · exact absurd h h1
      · exact absurd h h2
    · rw [heq]
    · rw [heq]
      decide
  · push_neg at hempty
    obtain ⟨h1, h2⟩ := hempty
    have hd1 : 1 ≤ (simpleTokenize (jdText jd fb)).length := by
      cases hj : simpleTokenize (jdText jd fb) with
      | nil => exact absurd hj h2
      | cons a l => simp
    have heq : scoreResumeAgainstJD resume jd fb =
        ((pyRoundDiv
            (100 * tokOverlap (simpleTokenize resume) (simpleTokenize (jdText jd fb)))
            (simpleTokenize (jdText jd fb)).length : Int),
         matchedMsg (tokOverlap (simpleTokenize resume) (simpleTokenize (jdText jd fb)))
           (simpleTokenize (jdText jd fb)).length) := by
      simp only [scoreResumeAgainstJD]
      rw [if_neg (by tauto), Nat.max_eq_left hd1]
    refine ⟨⟨fun habs => ?_, fun hor => ?_⟩, fun _ _ => heq, ?_, ?_⟩
    · rw [heq] at habs
      exact absurd (congrArg Prod.snd habs) (matchedMsg_ne_insufficient _ _)
    · rcases hor with h | h
      · exact absurd h h1
      · exact absurd h h2
    · rw [heq]
      dsimp only
      exact Int.natCast_nonneg _
    · rw [heq]
      dsimp only
      have hb := pyRoundDiv_le (tokOverlap_le (nodup_simpleTokenize resume)) hd1
      exact_mod_cast hb

/-- Witness for the C5 theorem: the spec's own worked example — resume
`"I know Python and React"` scored against the fallback text
`"python java"` gives `(50, "Matched 1 of 2 JD terms.")`. -/
theorem score_resume_spec_witness :
    simpleTokenize (pyS "I know Python and React") ≠ []
    ∧ simpleTokenize (jdText none (some (pyS "python java"))) ≠ []
    ∧ scoreResumeAgainstJD (pyS "I know Python and React") none (some (pyS "python java"))
        = ((50 : Int), pyS "Matched 1 of 2 JD terms.") := by
  refine ⟨by decide, by decide, ?_⟩
  have h := (score_resume_spec (pyS "I know Python and React") none
    (some (pyS "python java"))).2.1 (by decide) (by decide)
  rw [h]
  decide

end Scoutly
